import Mathlib

/-!
Shallow embedding of `tariffs_scraper.py`: a pipeline that extracts
(author, text) posts from a rendered search page, deduplicates them,
classifies each text's stance, ranks themes, and aggregates counts into
percentages, a skew label and a one-sentence summary.

Python strings are modelled as `List Char` (the ASCII fragment of
Python's whitespace / word-character classes is used).  The external
VADER polarity scorer is an oracle: `classify_stance` takes its
`compound` output as a rational parameter.  Page interaction results
(element text reads) are modelled as explicit data; a page call that
may raise is an `Except Unit` value.
-/

abbrev Str := List Char

/-- ASCII fragment of Python's whitespace class (`str.strip`, regex `\s`). -/
def isSpace (c : Char) : Bool :=
  c = ' ' || c = '\t' || c = '\n' || c = '\r' || c = '\x0b' || c = '\x0c'

/-- `re.sub(r"\s+", " ", s)`: collapse every maximal whitespace run to one space. -/
def collapse : Str → Str
  | [] => []
  | [c] => if isSpace c then [' '] else [c]
  | c :: c2 :: cs =>
    if isSpace c && isSpace c2 then collapse (c2 :: cs)
    else (if isSpace c then ' ' else c) :: collapse (c2 :: cs)

/-- Python `str.strip()`: drop leading and trailing whitespace. -/
def stripWS (l : Str) : Str :=
  ((l.dropWhile isSpace).reverse.dropWhile isSpace).reverse

/-- Normalisation of one structured container's text:
`" ".join(c.strip() for c in chunks)`, then `re.sub(r"\s+", " ", ·)`, then `.strip()`. -/
def normJoin (chunks : List Str) : Str :=
  stripWS (collapse (List.intercalate [' '] (chunks.map stripWS)))

/-- Normalisation of one fallback text fragment: `.strip()` then `re.sub(r"\s+", " ", ·)`. -/
def normFrag (s : Str) : Str := collapse (stripWS s)

/-- `text.lower()` (ASCII fragment). -/
def lowerStr (l : Str) : Str := l.map Char.toLower

/-- Is `pat` a prefix of `hay`? -/
def isPrefixL : Str → Str → Bool
  | [], _ => true
  | _ :: _, [] => false
  | a :: as, b :: bs => a == b && isPrefixL as bs

/-- Is `pat` a contiguous substring of `hay`? -/
def isSubL : Str → Str → Bool
  | pat, [] => isPrefixL pat []
  | pat, c :: t => isPrefixL pat (c :: t) || isSubL pat t

/-- Python's substring test `pat in hay`. -/
def containsS (hay : Str) (pat : String) : Bool := isSubL pat.toList hay

def POS_TARIFF_HINTS : List String :=
  ["protect", "protection", "protecting", "fair trade", "bring back jobs",
   "onshore", "reshore", "domestic", "manufacturing", "counter china",
   "stand up to china", "level playing field", "good", "win", "works"]

def NEG_TARIFF_HINTS : List String :=
  ["inflation", "prices", "price hike", "cost", "costs", "tax on consumers",
   "trade war", "retaliation", "tariff war", "smoot", "hawley", "inefficient",
   "jobs lost", "hurts", "burden", "bad", "stupid"]

def THEMES : List (String × List String) :=
  [("inflation/prices", ["inflation", "prices", "price", "expensive", "cost", "costs"]),
   ("china/geopolitics", ["china", "beijing", "ccp", "xi", "chinese"]),
   ("jobs/manufacturing", ["jobs", "manufacturing", "factory", "factories", "onshore", "reshore", "made in"]),
   ("trade war/retaliation", ["trade war", "tariff war", "retaliation", "retaliate", "tit for tat"]),
   ("farmers/agriculture", ["farmers", "agriculture", "soy", "corn", "wheat", "ranchers"]),
   ("consumers/smb", ["consumers", "consumer", "small business", "smb", "main street"]),
   ("national security", ["national security", "security", "strategic", "defense", "supply chain"])]

/-- `any(k in t for k in POS_TARIFF_HINTS)` over the lowercased text. -/
def posHit (text : Str) : Bool :=
  POS_TARIFF_HINTS.any (fun k => containsS (lowerStr text) k)

/-- `any(k in t for k in NEG_TARIFF_HINTS)` over the lowercased text. -/
def negHit (text : Str) : Bool :=
  NEG_TARIFF_HINTS.any (fun k => containsS (lowerStr text) k)

/-- `classify_stance(text, sia)`; `comp` is the VADER `compound` score, an
oracle input in the range the external scorer produces.  The literals
`0.20` / `0.2` of the source are the exact rational `1/5`. -/
def classify_stance (text : Str) (comp : ℚ) : Str :=
  let c1 := if posHit text then comp + 1/5 else comp
  let c2 := if negHit text then c1 - 1/5 else c1
  if c2 ≥ 1/5 then "positive".toList
  else if c2 ≤ -(1/5) then "negative".toList
  else "neutral".toList

/-- Classification of the raw, unadjusted compound score with the same thresholds. -/
def baselineStance (comp : ℚ) : Str :=
  if comp ≥ 1/5 then "positive".toList
  else if comp ≤ -(1/5) then "negative".toList
  else "neutral".toList

/-- Does `tx` (lowercased) contain at least one of the theme's trigger keywords? -/
def themeHit (keys : List String) (tx : Str) : Bool :=
  keys.any (fun k => containsS (lowerStr tx) k)

/-- The per-theme match counts, in the Theme Table's declaration order
(Python dict insertion order is preserved). -/
def themeCounts (texts : List Str) : List (String × Nat) :=
  THEMES.map (fun p => (p.1, texts.countP (fun tx => themeHit p.2 tx)))

/-- Stable insertion of `x` after every earlier element of count ≥ `x`'s count. -/
def insertDesc (x : String × Nat) : List (String × Nat) → List (String × Nat)
  | [] => [x]
  | y :: ys => if y.2 ≤ x.2 then x :: y :: ys else y :: insertDesc x ys

/-- Stable sort by count descending, ties kept in input order —
the behaviour of Python's stable `sorted(·, key=lambda kv: kv[1], reverse=True)`. -/
def sortDesc : List (String × Nat) → List (String × Nat)
  | [] => []
  | x :: xs => insertDesc x (sortDesc xs)

/-- `ranked = [t for t,_ in sorted(counts.items(), key=lambda kv: kv[1], reverse=True) if counts[t] > 0]`
(each pair's count is `counts` at its name, names being unique dict keys). -/
def rankedL (texts : List Str) : List String :=
  ((sortDesc (themeCounts texts)).filter (fun p => decide (0 < p.2))).map Prod.fst

/-- `top_themes(texts, k)`: `ranked[:k] if ranked else []`. -/
def top_themes (texts : List Str) (k : Nat) : List String :=
  let ranked := rankedL texts
  match ranked with
  | [] => []
  | _ => ranked.take k

/-- The count a given theme name receives (its trigger keywords looked up
in the Theme Table), for stating properties of `top_themes`. -/
def themeCountOf (texts : List Str) (name : String) : Nat :=
  texts.countP (fun tx => themeHit ((THEMES.lookup name).getD []) tx)

/-- Declaration index of a theme name in the Theme Table. -/
def declIdx (name : String) : Nat :=
  (THEMES.map Prod.fst).findIdx (fun n => n == name)

/-- `total = max(1, sum(counts.values()))`. -/
def totalOf (p n u : Nat) : Nat := max 1 (p + n + u)

/-- `pos = math.floor(100*counts["positive"]/total)` (exact floor division). -/
def posPct (p n u : Nat) : Nat := 100 * p / totalOf p n u

/-- `neg = math.floor(100*counts["negative"]/total)` (exact floor division). -/
def negPct (p n u : Nat) : Nat := 100 * n / totalOf p n u

/-- `neu = 100 - pos - neg`, over the integers as in Python. -/
def neuPct (p n u : Nat) : ℤ := 100 - posPct p n u - negPct p n u

/-- The skew label computed in `main`. -/
def skewOf (p n u : Nat) : Str :=
  if n > max p u then "negative".toList
  else if p > max n u then "positive".toList
  else "mixed".toList

structure Tweet where
  handle : Str
  text : Str
  deriving DecidableEq, Repr

/-- One structured post container (`article:has(div[lang])`), as the page
calls the extractor performs on it can answer:
`chunksRes` = `art.locator("div[lang]").all_inner_texts()` (may raise);
`userRes`   = the `div[data-testid='User-Name']` probe — `none` when the
block count is 0, `some raw` its inner text otherwise (may raise);
`artTextRes` = `art.inner_text()` (may raise). -/
structure Article where
  chunksRes : Except Unit (List Str)
  userRes : Except Unit (Option Str)
  artTextRes : Except Unit Str

/-- ASCII fragment of the regex word class `\w`. -/
def isWordChar (c : Char) : Bool := c.isAlphanum || c = '_'

/-- `re.search(r"@\w{1,15}", s)`: leftmost `@` followed by at least one
word character, matched greedily up to 15 word characters. -/
def findHandle : Str → Option Str
  | [] => none
  | c :: rest =>
    if c = '@' then
      if (rest.takeWhile isWordChar).isEmpty then findHandle rest
      else some ('@' :: (rest.takeWhile isWordChar).take 15)
    else findHandle rest

def unknownHandle : Str := "@unknown".toList

/-- The handle extraction of the structured loop, including its
`try/except: pass`: an error while reading the user block leaves the
initial `"@unknown"`; a handle equal to `"@unknown"` after the first
attempt triggers the whole-container search, whose own read error is
also swallowed. -/
def extractHandle (a : Article) : Str :=
  match a.userRes with
  | .error _ => unknownHandle
  | .ok userOpt =>
    let h1 := match userOpt with
      | none => unknownHandle
      | some raw =>
        match findHandle (stripWS raw) with
        | some h => h
        | none => unknownHandle
    if h1 = unknownHandle then
      match a.artTextRes with
      | .error _ => unknownHandle
      | .ok rawAll =>
        match findHandle (stripWS rawAll) with
        | some h => h
        | none => unknownHandle
    else h1

/-- `key = f"{handle}::{text[:80]}"`. -/
def keyOf (handle text : Str) : Str := handle ++ "::".toList ++ text.take 80

/-- Fallback-mode loop body: normalize, skip short fragments, dedup on
`text[:80]`, author always the unknown sentinel. -/
def scrapeFallbackGo : List Str → List Str → List Tweet
  | [], _ => []
  | node :: rest, seen =>
    if (normFrag node).length < 20 then scrapeFallbackGo rest seen
    else if (normFrag node).take 80 ∈ seen then scrapeFallbackGo rest seen
    else Tweet.mk unknownHandle (normFrag node)
      :: scrapeFallbackGo rest ((normFrag node).take 80 :: seen)

/-- Structured-mode loop body.  A failed chunk read (`all_inner_texts`)
is outside any `try` and propagates, aborting the pass; handle-read
errors are absorbed inside `extractHandle`. -/
def scrapeStructGo : List Article → List Str → Except Unit (List Tweet)
  | [], _ => .ok []
  | a :: rest, seen =>
    match a.chunksRes with
    | .error e => .error e
    | .ok chunks =>
      if chunks.isEmpty then scrapeStructGo rest seen
      else if (normJoin chunks).length < 20 then scrapeStructGo rest seen
      else if keyOf (extractHandle a) (normJoin chunks) ∈ seen then scrapeStructGo rest seen
      else
        match scrapeStructGo rest (keyOf (extractHandle a) (normJoin chunks) :: seen) with
        | .error e => .error e
        | .ok ts => .ok (Tweet.mk (extractHandle a) (normJoin chunks) :: ts)

/-- `scrape_tweets(page)`: fallback over at most 200 `div[lang]` fragments
when the page has zero structured containers, else structured mode over at
most 180 containers. -/
def scrape_tweets (arts : List Article) (nodes : List Str) : Except Unit (List Tweet) :=
  if arts.length = 0 then .ok (scrapeFallbackGo (nodes.take 200) [])
  else scrapeStructGo (arts.take 180) []

/-- The page state `main` observes after the Content Loader has run
(`load_results`, desktop endpoint then fallback mobile endpoint):
`markerCount` = `page.locator("div[lang]").count()` at the gate check,
`arts` / `nodes` = what the extractor's two selectors see. -/
structure PageState where
  markerCount : Nat
  arts : List Article
  nodes : List Str

inductive PipeErr
  | gated
  | scrapeFault
  deriving DecidableEq, Repr

structure Report where
  summary : Str
  counts : Nat × Nat × Nat
  csvRows : List (List Str)
  deriving DecidableEq, Repr

/-- Number of classified rows with the given stance (`counts[stance] += 1`). -/
def countStance (classified : List (Str × Str × Str)) (s : Str) : Nat :=
  classified.countP (fun r => decide (r.2.2 = s))

/-- The core of `main` after login/navigation: the content gate check,
extraction, per-record classification, aggregation, summary and CSV rows.
`compOf` is the VADER compound score of a text (external oracle). -/
def mainCore (compOf : Str → ℚ) (st : PageState) : Except PipeErr Report :=
  if st.markerCount = 0 then .error .gated
  else
    match scrape_tweets st.arts st.nodes with
    | .error _ => .error .scrapeFault
    | .ok tweets =>
      let classified := tweets.map (fun t => (t.handle, t.text, classify_stance t.text (compOf t.text)))
      let p := countStance classified "positive".toList
      let n := countStance classified "negative".toList
      let u := countStance classified "neutral".toList
      let pos := posPct p n u
      let neg := negPct p n u
      let neu := neuPct p n u
      let themes := top_themes (classified.map (fun r => r.2.1)) 2
      let skew := skewOf p n u
      let themesStr := if themes = [] then "mixed themes".toList
                       else (String.intercalate " and " themes).toList
      let summary := "On #Tariffs, tweets skew ".toList ++ skew
        ++ " (".toList ++ (toString neg).toList ++ "% negative, ".toList
        ++ (toString pos).toList ++ "% positive, ".toList
        ++ (toString neu).toList
        ++ "% neutral), with frequent mentions of ".toList ++ themesStr ++ ".".toList
      let rows := classified.map (fun r => [r.1, r.2.1, r.2.2])
      .ok ⟨summary, (p, n, u), ["handle".toList, "text".toList, "stance".toList] :: rows⟩

example : normFrag "  hello   big \t world  ".toList = "hello big world".toList := by decide
example : top_themes ["china tariffs raise prices".toList, "china again".toList] 2
    = ["china/geopolitics", "inflation/prices"] := by decide
example : skewOf 1 1 2 = "mixed".toList := by decide
example : posPct 1 1 2 = 25 ∧ negPct 1 1 2 = 25 ∧ neuPct 1 1 2 = 50 := by decide
example : findHandle "hi @some_user9 there".toList = some "@some_user9".toList := by decide

/-! ### Aggregator percentages (C1) and skew (C6) -/

theorem posPct_add_negPct_le (p n u : Nat) : posPct p n u + negPct p n u ≤ 100 := by
  have ht : 0 < totalOf p n u := le_max_left 1 _
  have hpn : 100 * p + 100 * n ≤ 100 * totalOf p n u := by
    have : p + n ≤ totalOf p n u := le_trans (by omega) (le_max_right 1 (p + n + u))
    nlinarith
  calc posPct p n u + negPct p n u
      ≤ (100 * p + 100 * n) / totalOf p n u := Nat.add_div_le_add_div _ _ _
    _ ≤ 100 * totalOf p n u / totalOf p n u := Nat.div_le_div_right hpn
    _ = 100 := Nat.mul_div_cancel 100 ht

/-- C1: the aggregator computes `total = max(1, positive+negative+neutral)`,
`pos_pct = floor(100*positive/total)`, `neg_pct = floor(100*negative/total)`,
`neu_pct = 100 - pos_pct - neg_pct`; the three percentages are nonnegative and
sum to exactly 100, and when all counts are zero they are 0, 0 and 100. -/
theorem aggregator_pct_spec (p n u : Nat) :
    posPct p n u = 100 * p / max 1 (p + n + u)
    ∧ negPct p n u = 100 * n / max 1 (p + n + u)
    ∧ neuPct p n u = 100 - (posPct p n u : ℤ) - (negPct p n u : ℤ)
    ∧ (posPct p n u : ℤ) + (negPct p n u : ℤ) + neuPct p n u = 100
    ∧ 0 ≤ neuPct p n u
    ∧ posPct 0 0 0 = 0 ∧ negPct 0 0 0 = 0 ∧ neuPct 0 0 0 = 100 := by
  refine ⟨rfl, rfl, rfl, by unfold neuPct; ring, ?_, by decide, by decide, by decide⟩
  have h := posPct_add_negPct_le p n u
  unfold neuPct
  have h2 : ((posPct p n u : ℤ)) + (negPct p n u : ℤ) ≤ 100 := by exact_mod_cast h
  omega

/-- C6: the skew label is "negative" iff negative strictly exceeds both other
counts, "positive" iff positive strictly exceeds both other counts, and
"mixed" in every remaining case. -/
theorem skew_spec (p n u : Nat) :
    (skewOf p n u = "negative".toList ↔ p < n ∧ u < n)
    ∧ (skewOf p n u = "positive".toList ↔ n < p ∧ u < p)
    ∧ (skewOf p n u = "mixed".toList ↔ ¬(p < n ∧ u < n) ∧ ¬(n < p ∧ u < p)) := by
  have e1 : ("negative".toList : Str) ≠ "positive".toList := by decide
  have e2 : ("negative".toList : Str) ≠ "mixed".toList := by decide
  have e3 : ("positive".toList : Str) ≠ "mixed".toList := by decide
  unfold skewOf
  split_ifs with h1 h2
  · rw [gt_iff_lt, max_lt_iff] at h1
    exact ⟨iff_of_true rfl h1, iff_of_false e1 (by omega), iff_of_false e2 (by omega)⟩
  · rw [gt_iff_lt, max_lt_iff] at h1 h2
    exact ⟨iff_of_false e1.symm (by omega), iff_of_true rfl h2, iff_of_false e3 (by omega)⟩
  · rw [gt_iff_lt, max_lt_iff] at h1 h2
    exact ⟨iff_of_false e2.symm (by omega), iff_of_false e3.symm (by omega),
      iff_of_true rfl ⟨h1, h2⟩⟩

/-! ### Stance classifier (C3, C10) -/

/-- The adjusted score the spec describes: compound score, plus 0.20 on a
positive-hint match, minus 0.20 on a negative-hint match, both additive. -/
def adjustedScore (text : Str) (comp : ℚ) : ℚ :=
  comp + (if posHit text then (1 : ℚ)/5 else 0) - (if negHit text then (1 : ℚ)/5 else 0)

theorem classify_eq_baseline_adjusted (text : Str) (comp : ℚ) :
    classify_stance text comp = baselineStance (adjustedScore text comp) := by
  unfold classify_stance baselineStance adjustedScore
  cases hp : posHit text <;> cases hn : negHit text <;> simp

theorem baselineStance_cases (q : ℚ) :
    (baselineStance q = "positive".toList ↔ 1/5 ≤ q)
    ∧ (baselineStance q = "negative".toList ↔ q ≤ -(1/5))
    ∧ (baselineStance q = "neutral".toList ↔ ¬(1/5 ≤ q) ∧ ¬(q ≤ -(1/5))) := by
  have e1 : ("positive".toList : Str) ≠ "negative".toList := by decide
  have e2 : ("positive".toList : Str) ≠ "neutral".toList := by decide
  have e3 : ("negative".toList : Str) ≠ "neutral".toList := by decide
  unfold baselineStance
  split_ifs with h1 h2
  · exact ⟨iff_of_true rfl h1, iff_of_false e1 (by intro hc; rw [ge_iff_le] at h1; linarith),
      iff_of_false e2 (by intro hc; exact hc.1 h1)⟩
  · exact ⟨iff_of_false e1.symm h1, iff_of_true rfl h2,
      iff_of_false e3 (by intro hc; exact hc.2 h2)⟩
  · exact ⟨iff_of_false e2.symm h1, iff_of_false e3.symm h2, iff_of_true rfl ⟨h1, h2⟩⟩

/-- C3: `classify_stance` adds 0.20 to the compound score when a positive hint
occurs in the lowercased text, subtracts 0.20 when a negative hint occurs (both
adjustments additive), and returns "positive" iff the adjusted score is ≥ 0.2,
"negative" iff it is ≤ -0.2, and "neutral" otherwise. -/
theorem classify_stance_spec (text : Str) (comp : ℚ) :
    (classify_stance text comp = "positive".toList ↔ 1/5 ≤ adjustedScore text comp)
    ∧ (classify_stance text comp = "negative".toList ↔ adjustedScore text comp ≤ -(1/5))
    ∧ (classify_stance text comp = "neutral".toList ↔
        ¬(1/5 ≤ adjustedScore text comp) ∧ ¬(adjustedScore text comp ≤ -(1/5))) := by
  rw [classify_eq_baseline_adjusted]
  exact baselineStance_cases (adjustedScore text comp)

/-- C10: when the lowercased text contains both a positive and a negative hint,
the two 0.20 adjustments cancel exactly and `classify_stance` agrees with
classifying the unadjusted compound score alone. -/
theorem classify_both_hints_cancel (text : Str) (comp : ℚ)
    (hp : posHit text = true) (hn : negHit text = true) :
    classify_stance text comp = baselineStance comp := by
  rw [classify_eq_baseline_adjusted]
  have h : adjustedScore text comp = comp := by
    unfold adjustedScore; rw [hp, hn]; simp
  rw [h]

/-- Witness for C10 at a concrete both-hints text and compound score 0. -/
theorem classify_both_hints_cancel_witness :
    posHit "Tariffs are good but the trade war hurts".toList = true
    ∧ negHit "Tariffs are good but the trade war hurts".toList = true
    ∧ classify_stance "Tariffs are good but the trade war hurts".toList 0
      = baselineStance 0 :=
  ⟨by decide, by decide,
   classify_both_hints_cancel _ 0 (by decide) (by decide)⟩

/-! ### Theme ranking (C4) -/

/-- "Count descending" between adjacent sorted pairs. -/
def countGe (a b : String × Nat) : Prop := b.2 ≤ a.2

/-- Tie-break: on equal counts, the earlier pair is the earlier-declared theme. -/
def stableBefore (a b : String × Nat) : Prop :=
  a.2 = b.2 → declIdx a.1 < declIdx b.1

theorem mem_of_mem_insertDesc {x y : String × Nat} {l : List (String × Nat)}
    (h : y ∈ insertDesc x l) : y = x ∨ y ∈ l := by
  induction l with
  | nil =>
    simp only [insertDesc, List.mem_singleton] at h
    exact Or.inl h
  | cons z zs ih =>
    simp only [insertDesc] at h
    split_ifs at h
    · simp only [List.mem_cons] at h
      rcases h with h | h
      · exact Or.inl h
      · exact Or.inr (List.mem_cons.mpr h)
    · simp only [List.mem_cons] at h
      rcases h with h | h
      · exact Or.inr (by simp [h])
      · rcases ih h with h | h
        · exact Or.inl h
        · exact Or.inr (by simp [h])

theorem mem_of_mem_sortDesc {y : String × Nat} :
    ∀ {l : List (String × Nat)}, y ∈ sortDesc l → y ∈ l := by
  intro l
  induction l with
  | nil => simp [sortDesc]
  | cons x xs ih =>
    intro h
    rcases mem_of_mem_insertDesc (by simpa [sortDesc] using h) with h | h
    · simp [h]
    · exact List.mem_cons_of_mem x (ih h)

theorem pairwise_ge_insertDesc {x : String × Nat} {l : List (String × Nat)}
    (h : List.Pairwise countGe l) : List.Pairwise countGe (insertDesc x l) := by
  induction l with
  | nil => simp [insertDesc]
  | cons z zs ih =>
    rcases List.pairwise_cons.mp h with ⟨hz, hzs⟩
    unfold insertDesc
    split_ifs with hc
    · refine List.Pairwise.cons ?_ h
      intro b hb
      rcases List.mem_cons.mp hb with rfl | hb
      · exact hc
      · exact le_trans (hz b hb) hc
    · refine List.Pairwise.cons ?_ (ih hzs)
      intro b hb
      rcases mem_of_mem_insertDesc hb with rfl | hb
      · exact le_of_lt (not_le.mp hc)
      · exact hz b hb

theorem pairwise_stable_insertDesc {x : String × Nat} {l : List (String × Nat)}
    (h : List.Pairwise stableBefore l)
    (hx : ∀ y ∈ l, y.2 = x.2 → declIdx x.1 < declIdx y.1) :
    List.Pairwise stableBefore (insertDesc x l) := by
  induction l with
  | nil => simp [insertDesc, stableBefore, List.pairwise_singleton]
  | cons z zs ih =>
    rcases List.pairwise_cons.mp h with ⟨hz, hzs⟩
    unfold insertDesc
    split_ifs with hc
    · refine List.Pairwise.cons ?_ h
      intro b hb heq
      exact hx b hb heq.symm
    · refine List.Pairwise.cons ?_ (ih hzs (fun y hy => hx y (List.mem_cons_of_mem z hy)))
      intro b hb
      rcases mem_of_mem_insertDesc hb with rfl | hb
      · intro heq
        exact absurd (le_of_eq heq) hc
      · exact hz b hb

theorem sortDesc_pairwise_ge (l : List (String × Nat)) :
    List.Pairwise countGe (sortDesc l) := by
  induction l with
  | nil => simp [sortDesc]
  | cons x xs ih => exact pairwise_ge_insertDesc ih

theorem sortDesc_pairwise_stable {l : List (String × Nat)}
    (h : List.Pairwise stableBefore l) :
    List.Pairwise stableBefore (sortDesc l) := by
  induction l with
  | nil => simp [sortDesc]
  | cons x xs ih =>
    rcases List.pairwise_cons.mp h with ⟨hx, hxs⟩
    exact pairwise_stable_insertDesc (ih hxs)
      (fun y hy heq => hx y (mem_of_mem_sortDesc hy) heq.symm)

theorem themeCounts_pairwise_stable (texts : List Str) :
    List.Pairwise stableBefore (themeCounts texts) := by
  unfold themeCounts
  rw [List.pairwise_map]
  have h : List.Pairwise (fun a b => declIdx a.1 < declIdx b.1) THEMES := by decide
  exact h.imp (fun hab => fun _ => hab)

theorem themeCounts_count_eq (texts : List Str) :
    ∀ pr ∈ themeCounts texts, pr.2 = themeCountOf texts pr.1 := by
  have hlk : ∀ p ∈ THEMES, (THEMES.lookup p.1).getD [] = p.2 := by decide
  intro pr hpr
  rcases List.mem_map.mp hpr with ⟨p, hp, rfl⟩
  unfold themeCountOf
  rw [hlk p hp]

theorem top_themes_eq_take (texts : List Str) (k : Nat) :
    top_themes texts k = (rankedL texts).take k := by
  unfold top_themes
  cases h : rankedL texts with
  | nil => simp
  | cons a l => simp

/-- C4: `top_themes texts k` returns at most `k` names, never a zero-count
theme, is sorted by match count descending with ties broken by the Theme
Table's declaration order, and is empty when every theme's count is zero. -/
theorem top_themes_spec (texts : List Str) (k : Nat) :
    (top_themes texts k).length ≤ k
    ∧ (∀ name ∈ top_themes texts k, 0 < themeCountOf texts name)
    ∧ List.Pairwise (fun a b => themeCountOf texts b < themeCountOf texts a
        ∨ (themeCountOf texts a = themeCountOf texts b ∧ declIdx a < declIdx b))
        (top_themes texts k)
    ∧ ((∀ pr ∈ themeCounts texts, pr.2 = 0) → top_themes texts k = []) := by
  have htake := top_themes_eq_take texts k
  refine ⟨?_, ?_, ?_, ?_⟩
  · rw [htake]
    exact List.length_take_le k _
  · intro name hname
    rw [htake] at hname
    have h1 : name ∈ rankedL texts := (List.take_sublist k _).mem hname
    rcases List.mem_map.mp h1 with ⟨pr, hpr, rfl⟩
    have h2 := List.mem_filter.mp hpr
    have h3 : pr ∈ themeCounts texts := mem_of_mem_sortDesc h2.1
    have h4 := themeCounts_count_eq texts pr h3
    have h5 : 0 < pr.2 := by simpa using h2.2
    exact h4 ▸ h5
  · rw [htake]
    have hge := sortDesc_pairwise_ge (themeCounts texts)
    have hst := sortDesc_pairwise_stable (themeCounts_pairwise_stable texts)
    have hcomb : List.Pairwise
        (fun a b : String × Nat => b.2 < a.2 ∨ (a.2 = b.2 ∧ declIdx a.1 < declIdx b.1))
        (sortDesc (themeCounts texts)) := by
      refine (hge.and hst).imp ?_
      rintro a b ⟨h1, h2⟩
      rcases lt_or_eq_of_le h1 with h | h
      · exact Or.inl h
      · exact Or.inr ⟨h.symm, h2 h.symm⟩
    have hconv : List.Pairwise
        (fun a b : String × Nat => themeCountOf texts b.1 < themeCountOf texts a.1
          ∨ (themeCountOf texts a.1 = themeCountOf texts b.1 ∧ declIdx a.1 < declIdx b.1))
        ((sortDesc (themeCounts texts)).filter (fun p => decide (0 < p.2))) := by
      refine (hcomb.sublist (List.filter_sublist _)).imp_of_mem ?_
      intro a b ha hb hab
      have ha2 := themeCounts_count_eq texts a (mem_of_mem_sortDesc (List.mem_filter.mp ha).1)
      have hb2 := themeCounts_count_eq texts b (mem_of_mem_sortDesc (List.mem_filter.mp hb).1)
      rcases hab with h | ⟨h1, h2⟩
      · exact Or.inl (ha2 ▸ hb2 ▸ h)
      · exact Or.inr ⟨ha2 ▸ hb2 ▸ h1, h2⟩
    unfold rankedL
    rw [← List.map_take]
    rw [List.pairwise_map]
    exact hconv.sublist (List.take_sublist k _)
  · intro hz
    have hf : (sortDesc (themeCounts texts)).filter (fun p => decide (0 < p.2)) = [] := by
      refine List.filter_eq_nil_iff.mpr ?_
      intro a ha
      have := hz a (mem_of_mem_sortDesc ha)
      simp [this]
    rw [htake]
    unfold rankedL
    rw [hf]
    simp

/-- Witness for C4's inner hypotheses at concrete inputs: a two-text corpus for
the membership and take bounds, and an all-zero-count corpus for emptiness. -/
theorem top_themes_spec_witness :
    (top_themes ["china tariffs raise prices".toList, "china again".toList] 2).length ≤ 2
    ∧ 0 < themeCountOf ["china tariffs raise prices".toList, "china again".toList] "china/geopolitics"
    ∧ top_themes ["hello world example".toList] 2 = [] :=
  ⟨(top_themes_spec ["china tariffs raise prices".toList, "china again".toList] 2).1,
   (top_themes_spec ["china tariffs raise prices".toList, "china again".toList] 2).2.1
     "china/geopolitics" (by decide),
   (top_themes_spec ["hello world example".toList] 2).2.2.2 (by decide)⟩

/-! ### Whitespace normalisation (for C8) -/

/-- The spec's "whitespace-normalized": any whitespace present is a single
plain space, no two adjacent whitespace characters, and no leading or
trailing whitespace. -/
def normalizedL (l : Str) : Prop :=
  (∀ c ∈ l, isSpace c = true → c = ' ')
  ∧ List.Chain' (fun a b => ¬(isSpace a = true ∧ isSpace b = true)) l
  ∧ (∀ c, l.head? = some c → isSpace c = false)
  ∧ (∀ c, l.getLast? = some c → isSpace c = false)

theorem collapse_mem : ∀ l : Str, ∀ d ∈ collapse l, isSpace d = true → d = ' '
  | [] => by simp [collapse]
  | [c] => by
    intro d hd hsp
    unfold collapse at hd
    split_ifs at hd with h
    · simpa using hd
    · simp only [List.mem_singleton] at hd
      subst hd
      exact absurd hsp (by simp [h])
  | c :: c2 :: cs => by
    intro d hd hsp
    unfold collapse at hd
    split_ifs at hd with h1 h2
    · exact collapse_mem (c2 :: cs) d hd hsp
    · rcases List.mem_cons.mp hd with rfl | hd
      · rfl
      · exact collapse_mem (c2 :: cs) d hd hsp
    · rcases List.mem_cons.mp hd with rfl | hd
      · exact absurd hsp h2
      · exact collapse_mem (c2 :: cs) d hd hsp

theorem collapse_head_nonspace (c : Char) (cs : Str) (h : isSpace c = false) :
    (collapse (c :: cs)).head? = some c := by
  cases cs with
  | nil =>
    unfold collapse
    rw [if_neg (by simp [h])]
    rfl
  | cons c2 cs2 =>
    unfold collapse
    rw [if_neg (by simp [h]), if_neg (by simp [h])]
    rfl

theorem collapse_chain :
    ∀ l : Str, List.Chain' (fun a b => ¬(isSpace a = true ∧ isSpace b = true)) (collapse l)
  | [] => by simp [collapse]
  | [c] => by
    unfold collapse
    split_ifs <;> simp
  | c :: c2 :: cs => by
    unfold collapse
    split_ifs with h1 h2
    · exact collapse_chain (c2 :: cs)
    · rw [List.chain'_cons']
      refine ⟨?_, collapse_chain (c2 :: cs)⟩
      intro y hy
      have hc2 : isSpace c2 = false := by
        cases hsc2 : isSpace c2
        · rfl
        · exact absurd (by rw [h2, hsc2]; rfl) h1
      rw [collapse_head_nonspace c2 cs hc2] at hy
      simp only [Option.mem_def, Option.some.injEq] at hy
      subst hy
      rintro ⟨-, hb⟩
      exact absurd hb (by simp [hc2])
    · rw [List.chain'_cons']
      refine ⟨?_, collapse_chain (c2 :: cs)⟩
      intro y hy
      rintro ⟨ha, -⟩
      exact h2 ha

theorem collapse_ne_nil : ∀ (c : Char) (cs : Str), collapse (c :: cs) ≠ []
  | c, [] => by
    unfold collapse
    split_ifs <;> simp
  | c, c2 :: cs2 => by
    unfold collapse
    split_ifs with h1 h2
    · exact collapse_ne_nil c2 cs2
    · simp
    · simp

theorem collapse_last :
    ∀ (l : Str) (c : Char), l.getLast? = some c → isSpace c = false →
      (collapse l).getLast? = some c
  | [], c => by simp
  | [a], c => by
    intro hc hsp
    simp only [List.getLast?_singleton, Option.some.injEq] at hc
    subst hc
    unfold collapse
    rw [if_neg (by simp [hsp])]
    rfl
  | a :: b :: bs, c => by
    intro hc hsp
    have hc2 : (b :: bs).getLast? = some c := by
      rwa [List.getLast?_cons_cons] at hc
    unfold collapse
    split_ifs with h1 h2
    · exact collapse_last (b :: bs) c hc2 hsp
    · rcases List.exists_cons_of_ne_nil (collapse_ne_nil b bs) with ⟨y, ys, hys⟩
      rw [hys, List.getLast?_cons_cons, ← hys]
      exact collapse_last (b :: bs) c hc2 hsp
    · rcases List.exists_cons_of_ne_nil (collapse_ne_nil b bs) with ⟨y, ys, hys⟩
      rw [hys, List.getLast?_cons_cons, ← hys]
      exact collapse_last (b :: bs) c hc2 hsp

theorem dropWhile_head_not :
    ∀ (l : Str) (c : Char), (l.dropWhile isSpace).head? = some c → isSpace c = false := by
  intro l
  induction l with
  | nil => simp
  | cons a as ih =>
    intro c hc
    rw [List.dropWhile_cons] at hc
    split_ifs at hc with h
    · exact ih c hc
    · simp only [List.head?_cons, Option.some.injEq] at hc
      subst hc
      simpa using h

theorem mem_stripWS {l : Str} {c : Char} (h : c ∈ stripWS l) : c ∈ l := by
  unfold stripWS at h
  rw [List.mem_reverse] at h
  have h2 := (List.dropWhile_sublist _).mem h
  rw [List.mem_reverse] at h2
  exact (List.dropWhile_sublist _).mem h2

theorem stripWS_chain {R : Char → Char → Prop} {l : Str} (h : List.Chain' R l) :
    List.Chain' R (stripWS l) := by
  unfold stripWS
  rw [List.chain'_reverse]
  have h2 : List.Chain' R (l.dropWhile isSpace) := h.suffix (List.dropWhile_suffix isSpace)
  have h4 : List.Chain' (flip R) ((l.dropWhile isSpace).reverse) :=
    List.chain'_reverse.mpr h2
  exact h4.suffix (List.dropWhile_suffix isSpace)

theorem stripWS_head {l : Str} {c : Char} (h : (stripWS l).head? = some c) :
    isSpace c = false := by
  unfold stripWS at h
  rw [List.head?_reverse] at h
  obtain ⟨t, ht⟩ := List.dropWhile_suffix (l := (l.dropWhile isSpace).reverse) isSpace
  have hm : ((l.dropWhile isSpace).reverse).getLast? = some c := by
    rw [← ht, List.getLast?_append, h]
    rfl
  rw [List.getLast?_reverse] at hm
  exact dropWhile_head_not l c hm

theorem stripWS_last {l : Str} {c : Char} (h : (stripWS l).getLast? = some c) :
    isSpace c = false := by
  unfold stripWS at h
  rw [List.getLast?_reverse] at h
  exact dropWhile_head_not _ c h

theorem normJoin_normalized (chunks : List Str) : normalizedL (normJoin chunks) := by
  unfold normJoin normalizedL
  refine ⟨?_, ?_, ?_, ?_⟩
  · intro c hc hsp
    exact collapse_mem _ c (mem_stripWS hc) hsp
  · exact stripWS_chain (collapse_chain _)
  · intro c hc
    exact stripWS_head hc
  · intro c hc
    exact stripWS_last hc

theorem normFrag_normalized (s : Str) : normalizedL (normFrag s) := by
  unfold normFrag normalizedL
  refine ⟨?_, ?_, ?_, ?_⟩
  · intro c hc hsp
    exact collapse_mem _ c hc hsp
  · exact collapse_chain _
  · intro c hc
    cases hs : stripWS s with
    | nil =>
      rw [hs] at hc
      simp [collapse] at hc
    | cons a as =>
      have ha : isSpace a = false := stripWS_head (by rw [hs]; rfl)
      rw [hs, collapse_head_nonspace a as ha] at hc
      simp only [Option.some.injEq] at hc
      subst hc
      exact ha
  · intro c hc
    cases hs : stripWS s with
    | nil =>
      rw [hs] at hc
      simp [collapse] at hc
    | cons a as =>
      have hne : a :: as ≠ [] := by simp
      have hlast : (a :: as).getLast? = some ((a :: as).getLast hne) :=
        List.getLast?_eq_getLast (a :: as) hne
      have hd : isSpace ((a :: as).getLast hne) = false := stripWS_last (by rw [hs]; exact hlast)
      rw [hs, collapse_last (a :: as) _ hlast hd] at hc
      simp only [Option.some.injEq] at hc
      subst hc
      exact hd

/-! ### Extractor lemmas (C2, C5, C7, C8) -/

theorem scrapeFallbackGo_shape :
    ∀ (nodes seen : List Str) (t : Tweet), t ∈ scrapeFallbackGo nodes seen →
      t.handle = unknownHandle ∧ (∃ node ∈ nodes, t.text = normFrag node)
      ∧ 20 ≤ t.text.length := by
  intro nodes
  induction nodes with
  | nil =>
    intro seen t ht
    simp [scrapeFallbackGo] at ht
  | cons node rest ih =>
    intro seen t ht
    unfold scrapeFallbackGo at ht
    split_ifs at ht with h1 h2
    · rcases ih seen t ht with ⟨hh, ⟨nd, hnd, htx⟩, hlen⟩
      exact ⟨hh, ⟨nd, List.mem_cons_of_mem node hnd, htx⟩, hlen⟩
    · rcases ih seen t ht with ⟨hh, ⟨nd, hnd, htx⟩, hlen⟩
      exact ⟨hh, ⟨nd, List.mem_cons_of_mem node hnd, htx⟩, hlen⟩
    · rcases List.mem_cons.mp ht with rfl | ht
      · refine ⟨rfl, ⟨node, List.mem_cons_self node rest, rfl⟩, ?_⟩
        show 20 ≤ (normFrag node).length
        omega
      · rcases ih _ t ht with ⟨hh, ⟨nd, hnd, htx⟩, hlen⟩
        exact ⟨hh, ⟨nd, List.mem_cons_of_mem node hnd, htx⟩, hlen⟩

theorem scrapeFallbackGo_keys :
    ∀ (nodes seen : List Str),
      (∀ t ∈ scrapeFallbackGo nodes seen, t.text.take 80 ∉ seen)
      ∧ List.Pairwise (fun t1 t2 => t1.text.take 80 ≠ t2.text.take 80)
          (scrapeFallbackGo nodes seen) := by
  intro nodes
  induction nodes with
  | nil =>
    intro seen
    simp [scrapeFallbackGo]
  | cons node rest ih =>
    intro seen
    unfold scrapeFallbackGo
    split_ifs with h1 h2
    · exact ih seen
    · exact ih seen
    · constructor
      · intro t ht
        rcases List.mem_cons.mp ht with rfl | ht
        · exact h2
        · intro hmem
          exact (ih _).1 t ht (List.mem_cons_of_mem _ hmem)
      · refine List.Pairwise.cons ?_ (ih _).2
        intro t ht heq
        have := (ih _).1 t ht
        rw [← heq] at this
        exact this (List.mem_cons_self _ _)

theorem scrapeStructGo_shape :
    ∀ (arts : List Article) (seen : List Str) (ts : List Tweet),
      scrapeStructGo arts seen = .ok ts → ∀ t ∈ ts,
        (∃ a ∈ arts, ∃ chunks, a.chunksRes = .ok chunks ∧ t.text = normJoin chunks)
        ∧ 20 ≤ t.text.length := by
  intro arts
  induction arts with
  | nil =>
    intro seen ts heq t ht
    simp only [scrapeStructGo, Except.ok.injEq] at heq
    subst heq
    simp at ht
  | cons a rest ih =>
    intro seen ts heq t ht
    unfold scrapeStructGo at heq
    cases hck : a.chunksRes with
    | error e => rw [hck] at heq; exact absurd heq (by simp)
    | ok chunks =>
      rw [hck] at heq
      simp only [] at heq
      split_ifs at heq with h1 h2 h3
      · rcases ih seen ts heq t ht with ⟨⟨a2, ha2, hw⟩, hlen⟩
        exact ⟨⟨a2, List.mem_cons_of_mem a ha2, hw⟩, hlen⟩
      · rcases ih seen ts heq t ht with ⟨⟨a2, ha2, hw⟩, hlen⟩
        exact ⟨⟨a2, List.mem_cons_of_mem a ha2, hw⟩, hlen⟩
      · rcases ih seen ts heq t ht with ⟨⟨a2, ha2, hw⟩, hlen⟩
        exact ⟨⟨a2, List.mem_cons_of_mem a ha2, hw⟩, hlen⟩
      · cases hrec : scrapeStructGo rest (keyOf (extractHandle a) (normJoin chunks) :: seen) with
        | error e => rw [hrec] at heq; exact absurd heq (by simp)
        | ok ts2 =>
          rw [hrec] at heq
          simp only [Except.ok.injEq] at heq
          subst heq
          rcases List.mem_cons.mp ht with rfl | ht
          · refine ⟨⟨a, List.mem_cons_self a rest, chunks, hck, rfl⟩, ?_⟩
            show 20 ≤ (normJoin chunks).length
            omega
          · rcases ih _ ts2 hrec t ht with ⟨⟨a2, ha2, hw⟩, hlen⟩
            exact ⟨⟨a2, List.mem_cons_of_mem a ha2, hw⟩, hlen⟩

theorem scrapeStructGo_keys :
    ∀ (arts : List Article) (seen : List Str) (ts : List Tweet),
      scrapeStructGo arts seen = .ok ts →
        (∀ t ∈ ts, keyOf t.handle t.text ∉ seen)
        ∧ List.Pairwise
            (fun t1 t2 => keyOf t1.handle t1.text ≠ keyOf t2.handle t2.text) ts := by
  intro arts
  induction arts with
  | nil =>
    intro seen ts heq
    simp only [scrapeStructGo, Except.ok.injEq] at heq
    subst heq
    simp
  | cons a rest ih =>
    intro seen ts heq
    unfold scrapeStructGo at heq
    cases hck : a.chunksRes with
    | error e => rw [hck] at heq; exact absurd heq (by simp)
    | ok chunks =>
      rw [hck] at heq
      simp only [] at heq
      split_ifs at heq with h1 h2 h3
      · exact ih seen ts heq
      · exact ih seen ts heq
      · exact ih seen ts heq
      · cases hrec : scrapeStructGo rest (keyOf (extractHandle a) (normJoin chunks) :: seen) with
        | error e => rw [hrec] at heq; exact absurd heq (by simp)
        | ok ts2 =>
          rw [hrec] at heq
          simp only [Except.ok.injEq] at heq
          subst heq
          constructor
          · intro t ht
            rcases List.mem_cons.mp ht with rfl | ht
            · exact h3
            · intro hmem
              exact (ih _ ts2 hrec).1 t ht (List.mem_cons_of_mem _ hmem)
          · refine List.Pairwise.cons ?_ (ih _ ts2 hrec).2
            intro t ht heq2
            have := (ih _ ts2 hrec).1 t ht
            rw [← heq2] at this
            exact this (List.mem_cons_self _ _)

/-- C5: in both extraction modes the output posts have pairwise-distinct dedup
keys: no two output posts agree on both the author handle and the first 80
characters of the text (later duplicates are silently discarded). -/
theorem scrape_dedup_spec (arts : List Article) (nodes : List Str) (ts : List Tweet)
    (h : scrape_tweets arts nodes = .ok ts) :
    List.Pairwise
      (fun t1 t2 => ¬(t1.handle = t2.handle ∧ t1.text.take 80 = t2.text.take 80)) ts := by
  unfold scrape_tweets at h
  split_ifs at h with hlen
  · simp only [Except.ok.injEq] at h
    subst h
    exact (scrapeFallbackGo_keys (nodes.take 200) []).2.imp
      (fun hne hconj => hne hconj.2)
  · exact (scrapeStructGo_keys (arts.take 180) [] ts h).2.imp
      (fun hne hconj => hne (by unfold keyOf; rw [hconj.1, hconj.2]))

/-- Two fallback fragments sharing their first 80 characters but with
different trailing text. -/
def dupFragA : Str :=
  "aaaaaaaaaaaaaaaaaaaaaaaaaaaaaaaaaaaaaaaaaaaaaaaaaaaaaaaaaaaaaaaaaaaaaaaaaaaaaaaa tail one".toList

def dupFragB : Str :=
  "aaaaaaaaaaaaaaaaaaaaaaaaaaaaaaaaaaaaaaaaaaaaaaaaaaaaaaaaaaaaaaaaaaaaaaaaaaaaaaaa tail two".toList

/-- Witness for C5 at a concrete page: two fallback fragments sharing their
first 80 characters, of which only the first survives. -/
theorem scrape_dedup_spec_witness :
    scrape_tweets [] [dupFragA, dupFragB] = .ok [Tweet.mk unknownHandle dupFragA]
    ∧ List.Pairwise
      (fun t1 t2 => ¬(t1.handle = t2.handle ∧ t1.text.take 80 = t2.text.take 80))
      [Tweet.mk unknownHandle dupFragA] :=
  ⟨by rfl,
   scrape_dedup_spec [] [dupFragA, dupFragB] [Tweet.mk unknownHandle dupFragA] (by rfl)⟩

/-- C7: with zero structured containers the extractor runs in fallback mode —
it looks at no more than the first 200 text fragments and tags every output
post with the unknown-author sentinel; with at least one container present the
fragments are never consulted (fallback mode is used only in the
zero-container case). -/
theorem fallback_mode_spec (arts : List Article) (nodes : List Str) :
    (arts = [] →
      scrape_tweets arts nodes = .ok (scrapeFallbackGo (nodes.take 200) [])
      ∧ scrape_tweets arts nodes = scrape_tweets arts (nodes.take 200)
      ∧ (∀ ts, scrape_tweets arts nodes = .ok ts → ∀ t ∈ ts, t.handle = unknownHandle))
    ∧ (arts ≠ [] → scrape_tweets arts nodes = scrape_tweets arts []) := by
  constructor
  · rintro rfl
    refine ⟨by simp [scrape_tweets], by simp [scrape_tweets, List.take_take], ?_⟩
    intro ts hts t ht
    simp only [scrape_tweets, List.length_nil, if_pos, Except.ok.injEq] at hts
    subst hts
    exact (scrapeFallbackGo_shape _ _ t ht).1
  · intro hne
    unfold scrape_tweets
    rw [if_neg (fun h => hne (List.length_eq_zero.mp h)),
      if_neg (fun h => hne (List.length_eq_zero.mp h))]

/-- Witness for C7 at concrete pages: one qualifying fragment and no
containers (fallback), and one container with no fragments (structured). -/
theorem fallback_mode_spec_witness :
    scrape_tweets [] ["a qualifying text fragment here".toList]
      = .ok [Tweet.mk unknownHandle "a qualifying text fragment here".toList]
    ∧ scrape_tweets [Article.mk (.ok []) (.ok none) (.ok [])]
        ["a qualifying text fragment here".toList]
      = scrape_tweets [Article.mk (.ok []) (.ok none) (.ok [])] [] := by
  constructor
  · have h := ((fallback_mode_spec [] ["a qualifying text fragment here".toList]).1 rfl).1
    rw [h]
    rfl
  · exact (fallback_mode_spec [Article.mk (.ok []) (.ok none) (.ok [])]
      ["a qualifying text fragment here".toList]).2 (by simp)

/-- C8: every post the extractor outputs, in either mode, has
whitespace-normalized text of length at least 20. -/
theorem scrape_normalized_spec (arts : List Article) (nodes : List Str) (ts : List Tweet)
    (h : scrape_tweets arts nodes = .ok ts) :
    ∀ t ∈ ts, normalizedL t.text ∧ 20 ≤ t.text.length := by
  intro t ht
  unfold scrape_tweets at h
  split_ifs at h with hlen
  · simp only [Except.ok.injEq] at h
    subst h
    rcases scrapeFallbackGo_shape _ _ t ht with ⟨-, ⟨node, -, htx⟩, hl⟩
    rw [htx] at hl ⊢
    exact ⟨normFrag_normalized node, hl⟩
  · rcases scrapeStructGo_shape _ _ ts h t ht with ⟨⟨a, -, chunks, -, htx⟩, hl⟩
    rw [htx] at hl ⊢
    exact ⟨normJoin_normalized chunks, hl⟩

/-- Witness for C8 at a concrete page with one messy fallback fragment. -/
theorem scrape_normalized_spec_witness :
    normalizedL (Tweet.mk unknownHandle "hello big world of tariff news".toList).text
    ∧ 20 ≤ (Tweet.mk unknownHandle "hello big world of tariff news".toList).text.length :=
  scrape_normalized_spec [] ["  hello   big \t world of tariff news ".toList] _
    (by rfl) _ (by decide)

/-! ### Structured-mode error handling (C2) -/

theorem scrapeStructGo_ok_iff :
    ∀ (arts : List Article) (seen : List Str),
      (∃ ts, scrapeStructGo arts seen = .ok ts)
      ↔ (∀ a ∈ arts, ∃ l, a.chunksRes = .ok l) := by
  intro arts
  induction arts with
  | nil =>
    intro seen
    simp [scrapeStructGo]
  | cons a rest ih =>
    intro seen
    unfold scrapeStructGo
    cases hck : a.chunksRes with
    | error e =>
      constructor
      · rintro ⟨ts, hts⟩
        exact absurd hts (by simp)
      · intro hall
        rcases hall a (List.mem_cons_self a rest) with ⟨l, hl⟩
        rw [hck] at hl
        exact absurd hl (by simp)
    | ok chunks =>
      constructor
      · rintro ⟨ts, hts⟩
        intro a2 ha2
        rcases List.mem_cons.mp ha2 with rfl | ha2
        · exact ⟨chunks, hck⟩
        · simp only [] at hts
          split_ifs at hts with h1 h2 h3
          · exact ((ih seen).mp ⟨ts, hts⟩) a2 ha2
          · exact ((ih seen).mp ⟨ts, hts⟩) a2 ha2
          · exact ((ih seen).mp ⟨ts, hts⟩) a2 ha2
          · cases hrec : scrapeStructGo rest
                (keyOf (extractHandle a) (normJoin chunks) :: seen) with
            | error e =>
              rw [hrec] at hts
              exact absurd hts (by simp)
            | ok ts2 =>
              exact ((ih _).mp ⟨ts2, hrec⟩) a2 ha2
      · intro hall
        have h2 : ∀ a2 ∈ rest, ∃ l, a2.chunksRes = .ok l :=
          fun a2 ha2 => hall a2 (List.mem_cons_of_mem a ha2)
        simp only []
        split_ifs with hc1 hc2 hc3
        · exact (ih seen).mpr h2
        · exact (ih seen).mpr h2
        · exact (ih seen).mpr h2
        · rcases (ih (keyOf (extractHandle a) (normJoin chunks) :: seen)).mpr h2
            with ⟨ts2, hts2⟩
          rw [hts2]
          exact ⟨_, rfl⟩

/-- A container whose text chunks read fine but whose author-identity reads
both raise. -/
def errHandleArticle : Article :=
  Article.mk (.ok ["This is a sufficiently long tweet text".toList]) (.error ()) (.error ())

/-- C2 counterexample: an extraction error occurs for this container (both of
its author-identity reads raise), yet the container is not skipped — the
extractor still emits a post for it, with the sentinel handle. -/
theorem struct_error_not_skipped_cex :
    errHandleArticle.userRes = Except.error ()
    ∧ scrape_tweets [errHandleArticle] []
      = .ok [Tweet.mk unknownHandle "This is a sufficiently long tweet text".toList] :=
  ⟨rfl, by rfl⟩

/-- C2 amended: in structured mode only author-handle extraction errors are
caught, and they do not skip the container — the post is still emitted (with
the sentinel handle) whenever its text qualifies; an error while reading a
container's text chunks is not caught, so the pass succeeds exactly when every
examined container's chunk read succeeds. -/
theorem struct_error_handling_amended :
    (∀ (arts : List Article) (nodes : List Str), arts ≠ [] →
      ((∃ ts, scrape_tweets arts nodes = .ok ts)
        ↔ ∀ a ∈ arts.take 180, ∃ l, a.chunksRes = .ok l))
    ∧ (∀ (a : Article) (chunks : List Str),
        a.chunksRes = .ok chunks → a.userRes = .error () →
        ¬(normJoin chunks).length < 20 →
        scrape_tweets [a] [] = .ok [Tweet.mk unknownHandle (normJoin chunks)]) := by
  constructor
  · intro arts nodes hne
    unfold scrape_tweets
    rw [if_neg (fun h => hne (List.length_eq_zero.mp h))]
    exact scrapeStructGo_ok_iff (arts.take 180) []
  · intro a chunks hck hu hlen
    have hch : chunks.isEmpty = false := by
      cases chunks with
      | nil => exact absurd (by decide : (normJoin []).length < 20) hlen
      | cons c cs => rfl
    have hhandle : extractHandle a = unknownHandle := by
      unfold extractHandle
      rw [hu]
    unfold scrape_tweets
    rw [if_neg (by simp)]
    show scrapeStructGo [a] [] = _
    unfold scrapeStructGo
    rw [hck]
    simp only []
    rw [hch, hhandle]
    rw [if_neg (by simp), if_neg hlen, if_neg (by simp)]
    rfl

/-- Witness for C2's amended statement at a concrete container whose
author-identity reads raise. -/
theorem struct_error_handling_amended_witness :
    (∃ ts, scrape_tweets [errHandleArticle] [] = .ok ts)
    ∧ scrape_tweets [errHandleArticle] []
      = .ok [Tweet.mk unknownHandle (normJoin ["This is a sufficiently long tweet text".toList])] :=
  ⟨(struct_error_handling_amended.1 [errHandleArticle] [] (by simp)).mpr
      (by
        intro a ha
        simp only [List.take, List.mem_singleton] at ha
        subst ha
        exact ⟨_, rfl⟩),
   struct_error_handling_amended.2 errHandleArticle
     ["This is a sufficiently long tweet text".toList] rfl rfl (by decide)⟩

/-! ### Content gate and empty-but-successful run (C9) -/

/-- C9: the pipeline fails with the content-unavailable error exactly when no
content marker is present after loading; a successful load with zero
qualifying posts is not fatal — it still yields the report and an export
holding only the header row. -/
theorem content_gate_spec (compOf : Str → ℚ) (st : PageState) :
    (mainCore compOf st = .error .gated ↔ st.markerCount = 0)
    ∧ (st.markerCount ≠ 0 → scrape_tweets st.arts st.nodes = .ok [] →
        mainCore compOf st = .ok (Report.mk
          ("On #Tariffs, tweets skew mixed (0% negative, 0% positive, 100% neutral), with frequent mentions of mixed themes.".toList)
          (0, 0, 0)
          [["handle".toList, "text".toList, "stance".toList]])) := by
  constructor
  · unfold mainCore
    by_cases hm : st.markerCount = 0
    · rw [if_pos hm]
      exact iff_of_true rfl hm
    · rw [if_neg hm]
      refine iff_of_false ?_ hm
      cases hscr : scrape_tweets st.arts st.nodes with
      | error e => simp
      | ok tweets => simp
  · intro hm hscr
    unfold mainCore
    rw [if_neg hm, hscr]
    simp only [List.map_nil]
    rfl

/-- Witness for C9 at a concrete page state: marker present and no posts
(successful empty run), and marker absent (fatal gate). -/
theorem content_gate_spec_witness :
    mainCore (fun _ => 0) (PageState.mk 1 [] []) = .ok (Report.mk
      ("On #Tariffs, tweets skew mixed (0% negative, 0% positive, 100% neutral), with frequent mentions of mixed themes.".toList)
      (0, 0, 0)
      [["handle".toList, "text".toList, "stance".toList]])
    ∧ mainCore (fun _ => 0) (PageState.mk 0 [] []) = .error .gated :=
  ⟨(content_gate_spec (fun _ => 0) (PageState.mk 1 [] [])).2 (by decide) (by rfl),
   (content_gate_spec (fun _ => 0) (PageState.mk 0 [] [])).1.mpr rfl⟩
